import Mathlib

/-!
Verification of the go4pack content-addressed object store, worker pool and
analysis pipeline.  Bytes are modelled as `List Nat`, the on-disk object area
as a partial map from paths (strings) to byte lists, and the Go functions of
`pkg/common` (package `fs`), `pkg/common/compress`, `pkg/common/worker` and
`pkg/fileio` as Lean functions over these states.
-/

namespace Go4pack

/-- Bytes of a file, each entry one byte value. -/
abbrev Bytes := List Nat

/-- `compress.CompressionType` from the compress package. -/
inductive CompressionType
  | none
  | gzip
  | zstd
deriving DecidableEq, Repr

/-- Error taxonomy of the store: I/O failures and codec failures. -/
inductive StoreError
  | ioError (msg : String)
  | codecError (msg : String)
deriving DecidableEq, Repr

instance : DecidableEq (Except StoreError Bytes) := fun a b =>
  match a, b with
  | .ok x, .ok y =>
    match decEq x y with
    | isTrue h => isTrue (by rw [h])
    | isFalse h => isFalse (fun hc => h (by cases hc; rfl))
  | .ok _, .error _ => isFalse (fun hc => by cases hc)
  | .error _, .ok _ => isFalse (fun hc => by cases hc)
  | .error x, .error y =>
    match decEq x y with
    | isTrue h => isTrue (by rw [h])
    | isFalse h => isFalse (fun hc => h (by cases hc; rfl))

/-- `compress.IsCompressed`: examine leading magic bytes; gzip magic is
`0x1f 0x8b` in the first two bytes, zstd frame magic is
`0x28 0xB5 0x2F 0xFD` in the first four; data shorter than two bytes is
reported as `none`. -/
def IsCompressed (data : Bytes) : CompressionType :=
  if data.length < 2 then .none
  else if data.take 2 = [0x1f, 0x8b] then .gzip
  else if 4 ≤ data.length ∧ data.take 4 = [0x28, 0xB5, 0x2F, 0xFD] then .zstd
  else .none

/-- Modelled from the spec: the gzip codec used by the store comes from the Go
standard library, which is not part of this repository.  Per the spec a codec
produces a self-describing frame (magic bytes, header and trailer around the
payload) and decompression of malformed or foreign input fails cleanly.  The
ten header bytes below follow the gzip file format (magic, method, flags,
mtime, xfl, os), the eight trailer bytes stand for crc32 and isize. -/
def gzipHeader : Bytes := [0x1f, 0x8b, 8, 0, 0, 0, 0, 0, 0, 255]

/-- Modelled from the spec: gzip trailer, crc32 plus isize placeholder. -/
def gzipTrailer : Bytes := [0, 0, 0, 0, 0, 0, 0, 0]

/-- Modelled from the spec: gzip compression produces a framed stream whose
payload is recoverable and which begins with the gzip magic. -/
def gzipCompress (data : Bytes) : Bytes := gzipHeader ++ data ++ gzipTrailer

/-- Modelled from the spec: gzip decompression recovers the payload of a
well-formed frame and fails cleanly on input that is not a gzip stream. -/
def gzipDecompress (data : Bytes) : Except StoreError Bytes :=
  if data.take 2 = [0x1f, 0x8b] ∧ 18 ≤ data.length then
    .ok ((data.drop 10).take (data.length - 18))
  else .error (.codecError "failed to create gzip reader")

/-- Modelled from the spec: zstd frame header, magic plus frame descriptor. -/
def zstdHeader : Bytes := [0x28, 0xB5, 0x2F, 0xFD, 0, 0, 0, 0, 0]

/-- Modelled from the spec: zstd compression (klauspost/compress/zstd, not part
of this repository) produces a self-describing frame beginning with the zstd
magic. -/
def zstdCompress (data : Bytes) : Bytes := zstdHeader ++ data

/-- Modelled from the spec: zstd decompression recovers the payload of a
well-formed frame and fails cleanly otherwise. -/
def zstdDecompress (data : Bytes) : Except StoreError Bytes :=
  if data.take 4 = [0x28, 0xB5, 0x2F, 0xFD] ∧ 9 ≤ data.length then
    .ok (data.drop 9)
  else .error (.codecError "failed to create zstd decoder")

/-- `Compressor.Compress` dispatched on the codec kind: `none` is the
identity, the other two produce their self-describing frames.  The modelled
encoders do not fail, so the error branch of the interface is never taken. -/
def compressorCompress (ct : CompressionType) (data : Bytes) :
    Except StoreError Bytes :=
  match ct with
  | .none => .ok data
  | .gzip => .ok (gzipCompress data)
  | .zstd => .ok (zstdCompress data)

/-- `Compressor.Decompress` dispatched on the codec kind. -/
def compressorDecompress (ct : CompressionType) (data : Bytes) :
    Except StoreError Bytes :=
  match ct with
  | .none => .ok data
  | .gzip => gzipDecompress data
  | .zstd => zstdDecompress data

/-- `compress.DecompressWithType`: build the compressor for the type and
decompress with it. -/
def DecompressWithType (data : Bytes) (ct : CompressionType) :
    Except StoreError Bytes :=
  compressorDecompress ct data

theorem gzip_roundtrip (data : Bytes) :
    gzipDecompress (gzipCompress data) = .ok data := by
  have hlen : (gzipCompress data).length = data.length + 18 := by
    simp [gzipCompress, gzipHeader, gzipTrailer]
  have htake : (gzipCompress data).take 2 = [0x1f, 0x8b] := by
    simp [gzipCompress, gzipHeader, List.take_append]
  unfold gzipDecompress
  rw [if_pos ⟨htake, by omega⟩]
  congr 1
  have hdrop : (gzipCompress data).drop 10 = data ++ gzipTrailer := by
    simp [gzipCompress, gzipHeader]
  rw [hdrop, hlen]
  have : data.length + 18 - 18 = data.length := by omega
  rw [this, List.take_append_of_le_length (le_refl _), List.take_length]

theorem zstd_roundtrip (data : Bytes) :
    zstdDecompress (zstdCompress data) = .ok data := by
  have hlen : (zstdCompress data).length = data.length + 9 := by
    simp [zstdCompress, zstdHeader]
  have htake : (zstdCompress data).take 4 = [0x28, 0xB5, 0x2F, 0xFD] := by
    simp [zstdCompress, zstdHeader, List.take_append]
  unfold zstdDecompress
  rw [if_pos ⟨htake, by omega⟩]
  simp [zstdCompress, zstdHeader]

theorem gzipCompress_detected (data : Bytes) :
    IsCompressed (gzipCompress data) = .gzip := by
  unfold IsCompressed
  have hlen : (gzipCompress data).length = data.length + 18 := by
    simp [gzipCompress, gzipHeader, gzipTrailer]
  have htake : (gzipCompress data).take 2 = [0x1f, 0x8b] := by
    simp [gzipCompress, gzipHeader, List.take_append]
  rw [if_neg (by omega), if_pos htake]

theorem zstdCompress_detected (data : Bytes) :
    IsCompressed (zstdCompress data) = .zstd := by
  unfold IsCompressed
  have hlen : (zstdCompress data).length = data.length + 9 := by
    simp [zstdCompress, zstdHeader]
  have htake4 : (zstdCompress data).take 4 = [0x28, 0xB5, 0x2F, 0xFD] := by
    simp [zstdCompress, zstdHeader, List.take_append]
  have htake2 : (zstdCompress data).take 2 = [0x28, 0xB5] := by
    simp [zstdCompress, zstdHeader, List.take_append]
  rw [if_neg (by omega), if_neg (by rw [htake2]; decide), if_pos ⟨by omega, htake4⟩]

/-!
## The object store

`pkg/common` (package `fs`) wraps an afero `OsFs`.  The object area is
modelled as a partial map from file paths to byte contents; directories never
fail to be created in the model (`MkdirAll` errors are not reachable in the
in-memory semantics), which matches every claim under study — none depends on
a directory-creation failure.
-/

/-- The object area: a partial map from paths to file contents. -/
def Store : Type := String → Option Bytes

/-- The empty object area. -/
def Store.empty : Store := fun _ => none

/-- Write (create or overwrite) a file, as `afero.WriteFile` / the target of
`os.Rename`. -/
def Store.set (s : Store) (p : String) (b : Bytes) : Store :=
  fun q => if q = p then some b else s q

/-- Remove a file, as `fs.Remove`. -/
def Store.remove (s : Store) (p : String) : Store :=
  fun q => if q = p then none else s q

/-- `afero.Exists` on a file path. -/
def Store.aferoExists (s : Store) (p : String) : Bool :=
  (s p).isSome

/-- `fs.FileSystem`: root-derived paths plus the configured default
compressor.  `New`/`NewWithBasePath` install `compress.NewDefaultCompressor()`,
which is zstd at maximum ratio. -/
structure FileSystem where
  objectsPath : String
  compressor : CompressionType
deriving DecidableEq, Repr

/-- The filesystem produced by `fs.New()`: objects under
`./.runtime/objects`, default compressor zstd. -/
def defaultFS : FileSystem :=
  { objectsPath := "./.runtime/objects", compressor := .zstd }

/-- `FileSystem.hashedPath`: the storage path for a hex hash, sharded by the
first two characters; hashes shorter than two characters fall back to the
unsharded join. -/
def hashedPath (fsys : FileSystem) (hash : String) : String :=
  if hash.length < 2 then fsys.objectsPath ++ "/" ++ hash
  else fsys.objectsPath ++ "/" ++ hash.take 2 ++ "/" ++ hash

/-- The path `FileSystem.DeleteObject` removes for a given name: the plain
(unsharded) join of the objects directory with the name. -/
def deleteObjectPath (fsys : FileSystem) (filename : String) : String :=
  fsys.objectsPath ++ "/" ++ filename

/-- `FileSystem.DeleteObject`: removes the unsharded object path.  The
`Remove` error is discarded by the upload handlers (`_ = fsys.DeleteObject`),
so only the resulting store matters. -/
def DeleteObject (fsys : FileSystem) (s : Store) (filename : String) : Store :=
  s.remove (deleteObjectPath fsys filename)

/-- `FileSystem.WriteObjectHashed`: dedup short-circuit if the hashed path is
occupied; store verbatim if the data already bears a codec magic; otherwise
compress with the default compressor and store. -/
def WriteObjectHashed (fsys : FileSystem) (s : Store) (hash : String)
    (data : Bytes) : Except StoreError Store :=
  let p := hashedPath fsys hash
  if s.aferoExists p then .ok s
  else if IsCompressed data ≠ .none then .ok (s.set p data)
  else
    match compressorCompress fsys.compressor data with
    | .error e => .error e
    | .ok compressedData => .ok (s.set p compressedData)

/-- `FileSystem.WriteObjectHashedRaw`: dedup short-circuit, otherwise store
the bytes without compression. -/
def WriteObjectHashedRaw (fsys : FileSystem) (s : Store) (hash : String)
    (data : Bytes) : Except StoreError Store :=
  let p := hashedPath fsys hash
  if s.aferoExists p then .ok s
  else .ok (s.set p data)

/-- `FileSystem.safeDecompress`: try the default compressor; on failure
return the original bytes.  By construction this never reports an error. -/
def safeDecompress (fsys : FileSystem) (data : Bytes) : Bytes :=
  match compressorDecompress fsys.compressor data with
  | .error _ => data
  | .ok out => out

/-- `FileSystem.ReadObjectHashed`: read raw stored bytes; if a codec is
detected from the magic, decompress with that codec; otherwise fall back to
`safeDecompress`. -/
def ReadObjectHashed (fsys : FileSystem) (s : Store) (hash : String) :
    Except StoreError Bytes :=
  match s (hashedPath fsys hash) with
  | none => .error (.ioError "file does not exist")
  | some compressedData =>
    let detectedType := IsCompressed compressedData
    if detectedType ≠ .none then DecompressWithType compressedData detectedType
    else .ok (safeDecompress fsys compressedData)

/-- `FileSystem.CommitTempAsHashed` on the `afero.OsFs` branch (the one every
constructor installs): dedup short-circuit removes the staging file and
reports `created = false`; otherwise `os.Rename` moves the staging file to
the hashed path, failing when the staging path does not exist. -/
def CommitTempAsHashed (fsys : FileSystem) (s : Store)
    (tempFilePath hash : String) :
    Except StoreError (String × Bool × Store) :=
  let p := hashedPath fsys hash
  if s.aferoExists p then .ok (p, false, s.remove tempFilePath)
  else
    match s tempFilePath with
    | none => .error (.ioError "rename temp")
    | some data => .ok (p, true, (s.remove tempFilePath).set p data)

/-- Write-then-read composition used by the roundtrip claim: a hashed write
of `data` followed by a hashed read of the same hash. -/
def hashedWriteRead (fsys : FileSystem) (hash : String) (data : Bytes) :
    Except StoreError Bytes :=
  match WriteObjectHashed fsys Store.empty hash data with
  | .error e => .error e
  | .ok s => ReadObjectHashed fsys s hash

theorem Store.empty_apply (p : String) : Store.empty p = none := rfl

theorem Store.set_self (s : Store) (p : String) (b : Bytes) :
    (s.set p b) p = some b := by
  simp [Store.set]

theorem Store.set_ne (s : Store) (p q : String) (b : Bytes) (h : q ≠ p) :
    (s.set p b) q = s q := by
  simp [Store.set, h]

theorem Store.remove_ne (s : Store) (p q : String) (h : q ≠ p) :
    (s.remove p) q = s q := by
  simp [Store.remove, h]

/-- The modelled encoders never fail, matching the spec contract that the
write-side codec failure branch is about encoder faults the model omits. -/
theorem compressorCompress_ok (ct : CompressionType) (d : Bytes) :
    ∃ out, compressorCompress ct d = .ok out := by
  cases ct <;> exact ⟨_, rfl⟩

/-- Data whose leading bytes match a codec magic is classified as
compressed. -/
theorem IsCompressed_ne_none_of_magic (B : Bytes)
    (hmagic : B.take 2 = [0x1f, 0x8b] ∨ B.take 4 = [0x28, 0xB5, 0x2F, 0xFD]) :
    IsCompressed B ≠ .none := by
  rcases hmagic with hg | hz
  · have hlen : 2 ≤ B.length := by
      have := congrArg List.length hg
      simp [List.length_take] at this
      omega
    unfold IsCompressed
    rw [if_neg (by omega), if_pos hg]
    decide
  · have hlen : 4 ≤ B.length := by
      have := congrArg List.length hz
      simp [List.length_take] at this
      omega
    have htake2 : B.take 2 = [0x28, 0xB5] := by
      have h24 : (B.take 4).take 2 = B.take 2 := by
        rw [List.take_take]
        norm_num
      rw [← h24, hz]
      decide
    unfold IsCompressed
    rw [if_neg (by omega), if_neg (by rw [htake2]; decide), if_pos ⟨hlen, hz⟩]
    decide

/-- A successful hashed write leaves the hashed path occupied. -/
theorem writeObjectHashed_occupies (fsys : FileSystem) (s₀ s : Store)
    (hash : String) (B : Bytes)
    (hw : WriteObjectHashed fsys s₀ hash B = .ok s) :
    (s (hashedPath fsys hash)).isSome = true := by
  unfold WriteObjectHashed at hw
  by_cases hex : s₀.aferoExists (hashedPath fsys hash)
  · rw [if_pos hex] at hw
    cases hw
    exact hex
  · rw [if_neg hex] at hw
    by_cases hct : IsCompressed B ≠ .none
    · rw [if_pos hct] at hw
      cases hw
      rw [Store.set_self]
      rfl
    · rw [if_neg hct] at hw
      obtain ⟨out, hout⟩ := compressorCompress_ok fsys.compressor B
      rw [hout] at hw
      cases hw
      rw [Store.set_self]
      rfl

/-- Claim C1 counterexample: a payload that is itself a well-formed gzip
stream (here the gzip frame of the empty payload) is stored verbatim by the
hashed write, but the hashed read then detects the gzip magic and
decompresses, returning the inner payload rather than the stored byte
sequence, so store-then-read does not yield the original bytes. -/
theorem C1_counterexample :
    hashedWriteRead defaultFS "d41d8cd98f00b204e9800998ecf8427e"
        (gzipCompress []) ≠ .ok (gzipCompress []) := by
  decide

/-- Claim C1 (amended): for every byte sequence whose leading bytes do not
match a known codec magic, writing with `WriteObjectHashed` on an empty store
and reading back with `ReadObjectHashed` yields exactly the original bytes;
already-magic-bearing sequences are instead stored verbatim and read back as
the detected codec's decompression of the stored bytes. -/
theorem C1_roundtrip (hash : String) (B : Bytes)
    (hB : IsCompressed B = .none) :
    hashedWriteRead defaultFS hash B = .ok B := by
  unfold hashedWriteRead
  have hwrite : WriteObjectHashed defaultFS Store.empty hash B =
      .ok (Store.empty.set (hashedPath defaultFS hash) (zstdCompress B)) := by
    unfold WriteObjectHashed
    rw [if_neg (by simp [Store.aferoExists, Store.empty_apply]),
      if_neg (by rw [hB]; simp)]
    rfl
  rw [hwrite]
  show ReadObjectHashed defaultFS
      (Store.empty.set (hashedPath defaultFS hash) (zstdCompress B)) hash =
    .ok B
  unfold ReadObjectHashed
  rw [Store.set_self]
  simp only [zstdCompress_detected, ne_eq]
  rw [if_pos (by decide : ¬(CompressionType.zstd = CompressionType.none))]
  unfold DecompressWithType compressorDecompress
  exact zstd_roundtrip B

/-- Claim C5: a byte sequence whose leading bytes match a known codec magic
(gzip `1F 8B` in the first two bytes or zstd `28 B5 2F FD` in the first four)
is stored byte-for-byte unchanged by a hashed write to an empty location,
with no extra compression layer. -/
theorem C5_magic_stored_verbatim (fsys : FileSystem) (s : Store)
    (hash : String) (B : Bytes)
    (hempty : s (hashedPath fsys hash) = none)
    (hmagic : B.take 2 = [0x1f, 0x8b] ∨ B.take 4 = [0x28, 0xB5, 0x2F, 0xFD]) :
    WriteObjectHashed fsys s hash B =
      .ok (s.set (hashedPath fsys hash) B) ∧
    (s.set (hashedPath fsys hash) B) (hashedPath fsys hash) = some B := by
  constructor
  · unfold WriteObjectHashed
    rw [if_neg (by simp [Store.aferoExists, hempty]),
      if_pos (IsCompressed_ne_none_of_magic B hmagic)]
  · exact Store.set_self s _ B

/-- Witness for C5 at a concrete input: the two-byte gzip magic itself. -/
theorem C5_witness :
    WriteObjectHashed defaultFS Store.empty "d41d8cd98f00b204e9800998ecf8427e"
        [0x1f, 0x8b] =
      .ok (Store.empty.set
        (hashedPath defaultFS "d41d8cd98f00b204e9800998ecf8427e")
        [0x1f, 0x8b]) ∧
    (Store.empty.set (hashedPath defaultFS "d41d8cd98f00b204e9800998ecf8427e")
        [0x1f, 0x8b])
      (hashedPath defaultFS "d41d8cd98f00b204e9800998ecf8427e") =
        some [0x1f, 0x8b] :=
  C5_magic_stored_verbatim defaultFS Store.empty
    "d41d8cd98f00b204e9800998ecf8427e" [0x1f, 0x8b] rfl (Or.inl (by decide))

/-- Witness for the amended C1 at a concrete input: a three-byte payload with
no codec magic survives the write/read roundtrip. -/
theorem C1_roundtrip_witness :
    hashedWriteRead defaultFS "ab" [1, 2, 3] = .ok [1, 2, 3] :=
  C1_roundtrip "ab" [1, 2, 3] (by decide)

/-- Claim C6: on a stored byte sequence, the hashed read decompresses with
the sniffed codec when a magic is recognized; otherwise it attempts the
default compressor and, when that attempt fails, returns the raw stored
bytes unchanged with no error — the fallback branch never fails. -/
theorem C6_read_dispatch (fsys : FileSystem) (s : Store) (hash : String)
    (S : Bytes) (hs : s (hashedPath fsys hash) = some S) :
    (IsCompressed S ≠ .none →
        ReadObjectHashed fsys s hash = DecompressWithType S (IsCompressed S)) ∧
    (IsCompressed S = .none →
        ReadObjectHashed fsys s hash = .ok (safeDecompress fsys S) ∧
        ∀ e, compressorDecompress fsys.compressor S = .error e →
            ReadObjectHashed fsys s hash = .ok S) := by
  have hread : ReadObjectHashed fsys s hash =
      if IsCompressed S ≠ .none then DecompressWithType S (IsCompressed S)
      else .ok (safeDecompress fsys S) := by
    unfold ReadObjectHashed
    rw [hs]
  refine ⟨fun hne => ?_, fun heq => ⟨?_, fun e he => ?_⟩⟩
  · rw [hread, if_pos hne]
  · rw [hread, if_neg (by simp [heq])]
  · rw [hread, if_neg (by simp [heq])]
    unfold safeDecompress
    rw [he]

/-- Witness for C6 at a concrete input: a one-byte object with no codec
magic. -/
theorem C6_witness :
    (IsCompressed [9] ≠ .none →
        ReadObjectHashed defaultFS
            (Store.empty.set (hashedPath defaultFS "ab") [9]) "ab" =
          DecompressWithType [9] (IsCompressed [9])) ∧
    (IsCompressed [9] = .none →
        ReadObjectHashed defaultFS
            (Store.empty.set (hashedPath defaultFS "ab") [9]) "ab" =
          .ok (safeDecompress defaultFS [9]) ∧
        ∀ e, compressorDecompress defaultFS.compressor [9] = .error e →
            ReadObjectHashed defaultFS
                (Store.empty.set (hashedPath defaultFS "ab") [9]) "ab" =
              .ok [9]) :=
  C6_read_dispatch defaultFS (Store.empty.set (hashedPath defaultFS "ab") [9])
    "ab" [9] (Store.set_self Store.empty (hashedPath defaultFS "ab") [9])

/-- Claim C2: once a hashed write under a hash has succeeded, every later
hashed write under the same hash — plain, raw, or the dedup branch of the
staged commit — succeeds without error, leaves the stored bytes at the
derived path untouched, and creates no additional physical file. -/
theorem C2_duplicate_writes_noop (fsys : FileSystem) (s₀ s : Store)
    (H T : String) (B d₁ d₂ : Bytes)
    (hw : WriteObjectHashed fsys s₀ H B = .ok s)
    (hT : T ≠ hashedPath fsys H) :
    WriteObjectHashed fsys s H d₁ = .ok s ∧
    WriteObjectHashedRaw fsys s H d₂ = .ok s ∧
    CommitTempAsHashed fsys s T H =
      .ok (hashedPath fsys H, false, s.remove T) ∧
    (s.remove T) (hashedPath fsys H) = s (hashedPath fsys H) ∧
    (∀ q, ((s.remove T) q).isSome = true → (s q).isSome = true) := by
  have hex : s.aferoExists (hashedPath fsys H) = true :=
    writeObjectHashed_occupies fsys s₀ s H B hw
  refine ⟨?_, ?_, ?_, ?_, ?_⟩
  · unfold WriteObjectHashed
    rw [if_pos hex]
  · unfold WriteObjectHashedRaw
    rw [if_pos hex]
  · unfold CommitTempAsHashed
    rw [if_pos hex]
  · exact Store.remove_ne s T (hashedPath fsys H) (by exact fun h => hT h.symm)
  · intro q hq
    by_cases hqT : q = T
    · subst hqT
      simp [Store.remove] at hq
    · rw [Store.remove_ne s T q hqT] at hq
      exact hq

/-- Witness for C2 at a concrete input: first write a one-byte payload, then
replay all three duplicate-write paths. -/
theorem C2_witness :
    WriteObjectHashed defaultFS
        (Store.empty.set (hashedPath defaultFS "ab") (zstdCompress [1]))
        "ab" [2] =
      .ok (Store.empty.set (hashedPath defaultFS "ab") (zstdCompress [1])) ∧
    WriteObjectHashedRaw defaultFS
        (Store.empty.set (hashedPath defaultFS "ab") (zstdCompress [1]))
        "ab" [3] =
      .ok (Store.empty.set (hashedPath defaultFS "ab") (zstdCompress [1])) ∧
    CommitTempAsHashed defaultFS
        (Store.empty.set (hashedPath defaultFS "ab") (zstdCompress [1]))
        "./.runtime/objects/up-1" "ab" =
      .ok (hashedPath defaultFS "ab", false,
        (Store.empty.set (hashedPath defaultFS "ab")
          (zstdCompress [1])).remove "./.runtime/objects/up-1") ∧
    ((Store.empty.set (hashedPath defaultFS "ab")
        (zstdCompress [1])).remove "./.runtime/objects/up-1")
      (hashedPath defaultFS "ab") =
      (Store.empty.set (hashedPath defaultFS "ab") (zstdCompress [1]))
        (hashedPath defaultFS "ab") ∧
    (∀ q,
      (((Store.empty.set (hashedPath defaultFS "ab")
          (zstdCompress [1])).remove "./.runtime/objects/up-1") q).isSome =
        true →
      ((Store.empty.set (hashedPath defaultFS "ab") (zstdCompress [1]))
        q).isSome = true) :=
  C2_duplicate_writes_noop defaultFS Store.empty
    (Store.empty.set (hashedPath defaultFS "ab") (zstdCompress [1]))
    "ab" "./.runtime/objects/up-1" [1] [2] [3] rfl (by decide)

/-- Claim C3: the staged commit moves the staging file into the hash-derived
location iff that location is empty (reporting `created = true`); when the
location is occupied it removes the staging file and reports
`created = false` with no error; and when the location is empty but the
staging path is missing it fails with an I/O error, distinct from the
successful dedup short-circuit. -/
theorem C3_commit_cases (fsys : FileSystem) (s : Store) (T H : String) :
    (∀ B, s (hashedPath fsys H) = none → s T = some B →
        CommitTempAsHashed fsys s T H =
          .ok (hashedPath fsys H, true,
            (s.remove T).set (hashedPath fsys H) B)) ∧
    ((s (hashedPath fsys H)).isSome = true →
        CommitTempAsHashed fsys s T H =
          .ok (hashedPath fsys H, false, s.remove T)) ∧
    (s (hashedPath fsys H) = none → s T = none →
        CommitTempAsHashed fsys s T H = .error (.ioError "rename temp")) := by
  refine ⟨fun B hdst htmp => ?_, fun hocc => ?_, fun hdst htmp => ?_⟩
  · unfold CommitTempAsHashed
    rw [if_neg (by simp [Store.aferoExists, hdst]), htmp]
  · have hex : s.aferoExists (hashedPath fsys H) = true := hocc
    unfold CommitTempAsHashed
    rw [if_pos hex]
  · unfold CommitTempAsHashed
    rw [if_neg (by simp [Store.aferoExists, hdst]), htmp]

/-- Witness for C3 at concrete inputs, one per branch: a present staging
file and empty destination, an occupied destination, and a missing staging
file with an empty destination. -/
theorem C3_witness :
    CommitTempAsHashed defaultFS (Store.empty.set "t" [5]) "t" "ab" =
      .ok (hashedPath defaultFS "ab", true,
        ((Store.empty.set "t" [5]).remove "t").set
          (hashedPath defaultFS "ab") [5]) ∧
    CommitTempAsHashed defaultFS
        (Store.empty.set (hashedPath defaultFS "ab") [7]) "t" "ab" =
      .ok (hashedPath defaultFS "ab", false,
        (Store.empty.set (hashedPath defaultFS "ab") [7]).remove "t") ∧
    CommitTempAsHashed defaultFS Store.empty "t" "ab" =
      .error (.ioError "rename temp") :=
  ⟨(C3_commit_cases defaultFS (Store.empty.set "t" [5]) "t" "ab").1 [5]
      (by decide) rfl,
    (C3_commit_cases defaultFS
        (Store.empty.set (hashedPath defaultFS "ab") [7]) "t" "ab").2.1
      (by decide),
    (C3_commit_cases defaultFS Store.empty "t" "ab").2.2 rfl rfl⟩

/-- Claim C7 divergence: the upload handlers react to a failed post-write
verification with `DeleteObject(md5)`, which removes the plain join
`objects/<hash>`, while the blob written by the hashed write sits at the
sharded path `objects/<hh>/<hash>`.  For any real (32-character) hash the two
paths differ, so the destination survives the cleanup: a partial hashed blob
is left behind, contrary to the documented cleanup behaviour. -/
theorem C7_cleanup_misses_sharded_path :
    deleteObjectPath defaultFS "d41d8cd98f00b204e9800998ecf8427e" ≠
      hashedPath defaultFS "d41d8cd98f00b204e9800998ecf8427e" ∧
    ∀ s B,
      s (hashedPath defaultFS "d41d8cd98f00b204e9800998ecf8427e") = some B →
      (DeleteObject defaultFS s "d41d8cd98f00b204e9800998ecf8427e")
        (hashedPath defaultFS "d41d8cd98f00b204e9800998ecf8427e") = some B := by
  constructor
  · decide
  · intro s B hB
    unfold DeleteObject
    rw [Store.remove_ne _ _ _ (by decide)]
    exact hB

/-- Witness for C7 at a concrete store: the one-byte blob at the sharded
path survives the failure-path cleanup. -/
theorem C7_witness :
    (DeleteObject defaultFS
        (Store.empty.set
          (hashedPath defaultFS "d41d8cd98f00b204e9800998ecf8427e") [1])
        "d41d8cd98f00b204e9800998ecf8427e")
      (hashedPath defaultFS "d41d8cd98f00b204e9800998ecf8427e") = some [1] :=
  C7_cleanup_misses_sharded_path.2
    (Store.empty.set
      (hashedPath defaultFS "d41d8cd98f00b204e9800998ecf8427e") [1]) [1]
    (Store.set_self Store.empty
      (hashedPath defaultFS "d41d8cd98f00b204e9800998ecf8427e") [1])

/-!
## The worker pool

`pkg/common/worker/pool.go` wraps an `ants` pool created with
`WithNonblocking(true)`.  The handoff semantics of that third-party pool are
modelled from the spec: "if no worker is immediately free, submission fails
fast rather than queuing".  The package-local counters (`Submitted`,
`Completed`) are updated exactly where `Submit` and the wrapped job update
them; `rejected` counts the handoffs the saturated pool refused and
`started` the jobs that ever began execution (both derived directly from the
two branches of `Submit`).
-/

/-- State of the worker pool: the ants pool (capacity, running workers) plus
the package counters. -/
structure PoolState where
  capacity : Nat
  running : List Nat
  started : List Nat
  submitted : Nat
  completed : Nat
  rejected : Nat
deriving DecidableEq, Repr

/-- `worker.Submit`: increments `stats.Submitted` under the mutex first, then
performs the nonblocking handoff — a free worker starts the job immediately,
a saturated pool refuses it.  Returns whether the handoff succeeded together
with the new state. -/
def Submit (s : PoolState) (j : Nat) : Bool × PoolState :=
  let s1 := { s with submitted := s.submitted + 1 }
  if s1.running.length < s1.capacity then
    (true, { s1 with running := j :: s1.running, started := j :: s1.started })
  else
    (false, { s1 with rejected := s1.rejected + 1 })

/-- Completion of a running job: the deferred block of the wrapped function
increments `stats.Completed` (also on a recovered panic) and the worker slot
frees up. -/
def finishJob (s : PoolState) (j : Nat) : PoolState :=
  if j ∈ s.running then
    { s with running := s.running.erase j, completed := s.completed + 1 }
  else s

/-- Pool events: a `Submit` call or the completion of a running job. -/
inductive PoolEvent
  | submitEv (j : Nat)
  | finishEv (j : Nat)
deriving DecidableEq, Repr

/-- One pool event. -/
def stepPool (s : PoolState) : PoolEvent → PoolState
  | .submitEv j => (Submit s j).2
  | .finishEv j => finishJob s j

/-- A sequence of pool events. -/
def runPool (s : PoolState) (es : List PoolEvent) : PoolState :=
  es.foldl stepPool s

/-- `StatsSnapshot`'s `queued_est` field: submitted minus completed minus
running. -/
def queuedEst (s : PoolState) : Nat :=
  s.submitted - s.completed - s.running.length

/-- Jobs handed off to the pool but neither completed nor running: the real
wait queue, which the nonblocking pool keeps empty. -/
def waitingCount (s : PoolState) : Nat :=
  s.submitted - s.completed - s.running.length - s.rejected

/-- Accounting invariant tying the counters together: every submission was
completed, is running, or was rejected. -/
def poolInv (s : PoolState) : Prop :=
  s.submitted = s.completed + s.running.length + s.rejected

instance (s : PoolState) : Decidable (poolInv s) := by
  unfold poolInv
  infer_instance

theorem stepPool_submit (s : PoolState) (j : Nat) :
    stepPool s (.submitEv j) = (Submit s j).2 := rfl

theorem stepPool_finish (s : PoolState) (j : Nat) :
    stepPool s (.finishEv j) = finishJob s j := rfl

theorem Submit_accepted (s : PoolState) (j : Nat)
    (hc : s.running.length < s.capacity) :
    Submit s j = (true,
      { s with submitted := s.submitted + 1, running := j :: s.running,
               started := j :: s.started }) := by
  simp only [Submit]
  rw [if_pos hc]

theorem Submit_rejected (s : PoolState) (j : Nat)
    (hc : ¬ s.running.length < s.capacity) :
    Submit s j = (false,
      { s with submitted := s.submitted + 1,
               rejected := s.rejected + 1 }) := by
  simp only [Submit]
  rw [if_neg hc]

theorem finishJob_mem (s : PoolState) (j : Nat) (hj : j ∈ s.running) :
    finishJob s j = { s with running := s.running.erase j,
                             completed := s.completed + 1 } := by
  unfold finishJob
  rw [if_pos hj]

theorem finishJob_notMem (s : PoolState) (j : Nat) (hj : j ∉ s.running) :
    finishJob s j = s := by
  unfold finishJob
  rw [if_neg hj]

theorem poolInv_step (s : PoolState) (e : PoolEvent) (h : poolInv s) :
    poolInv (stepPool s e) := by
  unfold poolInv at h
  cases e with
  | submitEv j =>
    rw [stepPool_submit]
    by_cases hc : s.running.length < s.capacity
    · rw [Submit_accepted s j hc]
      show s.submitted + 1 =
        s.completed + (j :: s.running).length + s.rejected
      simp only [List.length_cons]
      omega
    · rw [Submit_rejected s j hc]
      show s.submitted + 1 =
        s.completed + s.running.length + (s.rejected + 1)
      omega
  | finishEv j =>
    rw [stepPool_finish]
    by_cases hj : j ∈ s.running
    · rw [finishJob_mem s j hj]
      show s.submitted =
        s.completed + 1 + (s.running.erase j).length + s.rejected
      have hlen := List.length_erase_of_mem hj
      have hpos : 0 < s.running.length :=
        List.length_pos.mpr (List.ne_nil_of_mem hj)
      omega
    · rw [finishJob_notMem s j hj]
      exact h

theorem poolInv_run (s : PoolState) (es : List PoolEvent) (h : poolInv s) :
    poolInv (runPool s es) := by
  induction es generalizing s with
  | nil => exact h
  | cons e es ih => exact ih (stepPool s e) (poolInv_step s e h)

theorem rejected_mono_step (s : PoolState) (e : PoolEvent) :
    s.rejected ≤ (stepPool s e).rejected := by
  cases e with
  | submitEv j =>
    rw [stepPool_submit]
    by_cases hc : s.running.length < s.capacity
    · rw [Submit_accepted s j hc]
    · rw [Submit_rejected s j hc]
      exact Nat.le_succ _
  | finishEv j =>
    rw [stepPool_finish]
    by_cases hj : j ∈ s.running
    · rw [finishJob_mem s j hj]
    · rw [finishJob_notMem s j hj]

theorem rejected_mono_run (s : PoolState) (es : List PoolEvent) :
    s.rejected ≤ (runPool s es).rejected := by
  induction es generalizing s with
  | nil => exact le_refl _
  | cons e es ih =>
    exact le_trans (rejected_mono_step s e) (ih (stepPool s e))

theorem started_stable (s : PoolState) (es : List PoolEvent) (j : Nat)
    (hnew : j ∉ s.started)
    (hes : ∀ e ∈ es, e ≠ PoolEvent.submitEv j) :
    j ∉ (runPool s es).started := by
  induction es generalizing s with
  | nil => exact hnew
  | cons e es ih =>
    refine ih (stepPool s e) ?_ (fun x hx => hes x (List.mem_cons_of_mem e hx))
    cases e with
    | submitEv k =>
      have hk : k ≠ j := by
        intro hkj
        exact (hes _ (List.mem_cons_self _ _)) (by rw [hkj])
      rw [stepPool_submit]
      by_cases hc : s.running.length < s.capacity
      · rw [Submit_accepted s k hc]
        show j ∉ k :: s.started
        simp only [List.mem_cons]
        rintro (hjk | hmem)
        · exact hk hjk.symm
        · exact hnew hmem
      · rw [Submit_rejected s k hc]
        exact hnew
    | finishEv k =>
      rw [stepPool_finish]
      by_cases hj : k ∈ s.running
      · rw [finishJob_mem s k hj]
        exact hnew
      · rw [finishJob_notMem s k hj]
        exact hnew

/-- Claim C8: submitting to a saturated pool (running count equal to
capacity) never blocks — the handoff is refused immediately, the only state
change is the submitted (and rejected) counter, and the refused job never
runs: it is absent from the started set after any subsequent event sequence
that does not submit it afresh. -/
theorem C8_saturated_submit_fails (s : PoolState) (j : Nat)
    (es : List PoolEvent)
    (hfull : s.running.length = s.capacity)
    (hnew : j ∉ s.started)
    (hes : ∀ e ∈ es, e ≠ PoolEvent.submitEv j) :
    (Submit s j).1 = false ∧
    (Submit s j).2 =
      { s with submitted := s.submitted + 1, rejected := s.rejected + 1 } ∧
    j ∉ (runPool (Submit s j).2 es).started := by
  have hnotlt : ¬ s.running.length < s.capacity := by omega
  have hsub := Submit_rejected s j hnotlt
  refine ⟨by rw [hsub], by rw [hsub], ?_⟩
  rw [hsub]
  exact started_stable _ es j hnew hes

/-- Witness for C8 at a concrete pool: capacity one, one running job, a
fresh job refused and never started. -/
theorem C8_witness :
    (Submit ⟨1, [0], [0], 1, 0, 0⟩ 5).1 = false ∧
    (Submit ⟨1, [0], [0], 1, 0, 0⟩ 5).2 = ⟨1, [0], [0], 2, 0, 1⟩ ∧
    5 ∉ (runPool (Submit ⟨1, [0], [0], 1, 0, 0⟩ 5).2
          [PoolEvent.finishEv 0, PoolEvent.submitEv 7]).started :=
  C8_saturated_submit_fails ⟨1, [0], [0], 1, 0, 0⟩ 5
    [PoolEvent.finishEv 0, PoolEvent.submitEv 7] rfl (by decide) (by decide)

/-- Claim C10: every `Submit` call increments the submitted counter exactly
once before attempting handoff (rejections included), the completed counter
moves only when a running job finishes, and once any submission has been
rejected the snapshot's `queued_est` permanently exceeds the number of jobs
actually waiting (always zero in the nonblocking pool). -/
theorem C10_queue_estimate_overcount (s : PoolState)
    (hinv : poolInv s) (hrej : 1 ≤ s.rejected) :
    (∀ t k, (Submit t k).2.submitted = t.submitted + 1) ∧
    (∀ t k, (Submit t k).2.completed = t.completed) ∧
    (∀ t k, k ∉ t.running → finishJob t k = t) ∧
    (∀ es,
      queuedEst (runPool s es) =
        waitingCount (runPool s es) + (runPool s es).rejected ∧
      waitingCount (runPool s es) = 0 ∧
      queuedEst (runPool s es) > waitingCount (runPool s es)) := by
  refine ⟨?_, ?_, ?_, ?_⟩
  · intro t k
    by_cases hc : t.running.length < t.capacity
    · rw [Submit_accepted t k hc]
    · rw [Submit_rejected t k hc]
  · intro t k
    by_cases hc : t.running.length < t.capacity
    · rw [Submit_accepted t k hc]
    · rw [Submit_rejected t k hc]
  · intro t k hk
    exact finishJob_notMem t k hk
  · intro es
    have hinv2 : poolInv (runPool s es) := poolInv_run s es hinv
    have hmono : 1 ≤ (runPool s es).rejected :=
      le_trans hrej (rejected_mono_run s es)
    unfold poolInv at hinv2
    unfold queuedEst waitingCount
    omega

/-- Witness for C10 at a concrete pool: one prior rejection, then a
submit/finish pair; the estimate still reads one while nothing waits. -/
theorem C10_witness :
    poolInv ⟨1, [], [], 1, 0, 1⟩ ∧
    queuedEst (runPool ⟨1, [], [], 1, 0, 1⟩
        [PoolEvent.submitEv 3, PoolEvent.finishEv 3]) >
      waitingCount (runPool ⟨1, [], [], 1, 0, 1⟩
        [PoolEvent.submitEv 3, PoolEvent.finishEv 3]) :=
  ⟨by decide,
    ((C10_queue_estimate_overcount ⟨1, [], [], 1, 0, 1⟩ (by decide)
        (by decide)).2.2.2
      [PoolEvent.submitEv 3, PoolEvent.finishEv 3]).2.2⟩

/-!
## Two concurrent staged commits

`CommitTempAsHashed` touches shared state at two points: the existence check
on the hash-derived path and the action that follows (atomic rename, or
removal of the own staging file).  Two committers for the same hash with
equal content are modelled as two processes interleaved by an arbitrary
schedule; `os.Rename` atomically replaces the destination, so a second
rename overwrites the first placement with identical bytes.  The destination
cell carries a ghost tag naming the process whose copy currently sits
there. -/

/-- Program counter of one committer: before the existence check, after it
(recording the observed answer), or returned (with the `created` flag and
whether the call failed). -/
inductive CommitPC
  | start
  | checked (sawExists : Bool)
  | done (created : Bool) (fault : Bool)
deriving DecidableEq, Repr

/-- True exactly on returned program counters. -/
def CommitPC.isDone : CommitPC → Bool
  | .done _ _ => true
  | _ => false

/-- Shared state of the race: the blob cell at the hash-derived path (bytes
plus ghost owner tag), both staging files, both program counters. -/
structure CommitRace where
  dest : Option (Bytes × Bool)
  temp1 : Option Bytes
  temp2 : Option Bytes
  pc1 : CommitPC
  pc2 : CommitPC
deriving DecidableEq, Repr

/-- One micro-step of the first committer, following the body of
`CommitTempAsHashed`: check existence; if seen, remove the own staging file
and return `created = false`; otherwise rename the staging file onto the
destination (failing only when the staging file is gone). -/
def stepP1 (st : CommitRace) : CommitRace :=
  match st.pc1 with
  | .start => { st with pc1 := .checked st.dest.isSome }
  | .checked true => { st with temp1 := none, pc1 := .done false false }
  | .checked false =>
    match st.temp1 with
    | some b =>
      { st with dest := some (b, true), temp1 := none,
                pc1 := .done true false }
    | none => { st with pc1 := .done false true }
  | .done _ _ => st

/-- One micro-step of the second committer, symmetric to `stepP1`. -/
def stepP2 (st : CommitRace) : CommitRace :=
  match st.pc2 with
  | .start => { st with pc2 := .checked st.dest.isSome }
  | .checked true => { st with temp2 := none, pc2 := .done false false }
  | .checked false =>
    match st.temp2 with
    | some b =>
      { st with dest := some (b, false), temp2 := none,
                pc2 := .done true false }
    | none => { st with pc2 := .done false true }
  | .done _ _ => st

/-- The scheduled process takes its next micro-step. -/
def commitStep (st : CommitRace) (i : Bool) : CommitRace :=
  if i then stepP1 st else stepP2 st

/-- Initial state: empty destination, both staging files holding the same
content. -/
def commitInit (B : Bytes) : CommitRace :=
  { dest := none, temp1 := some B, temp2 := some B,
    pc1 := .start, pc2 := .start }

/-- Run the race under a schedule (`true` = first committer steps). -/
def runCommit (st : CommitRace) (sched : List Bool) : CommitRace :=
  sched.foldl commitStep st

/-- Inductive invariant of the race: the destination only ever holds the
common content; a committer that has not returned still owns its staging
copy; a returned committer has discarded its staging copy, reported no
fault, and left the destination populated; observing the destination as
occupied means it held the common content. -/
def commitInv (B : Bytes) (st : CommitRace) : Prop :=
  (st.dest = none ∨ ∃ w, st.dest = some (B, w)) ∧
  (st.pc1.isDone = false → st.temp1 = some B) ∧
  (st.pc2.isDone = false → st.temp2 = some B) ∧
  (∀ c f, st.pc1 = .done c f →
    st.temp1 = none ∧ f = false ∧ ∃ w, st.dest = some (B, w)) ∧
  (∀ c f, st.pc2 = .done c f →
    st.temp2 = none ∧ f = false ∧ ∃ w, st.dest = some (B, w)) ∧
  (st.pc1 = .checked true → ∃ w, st.dest = some (B, w)) ∧
  (st.pc2 = .checked true → ∃ w, st.dest = some (B, w))

theorem stepP1_start (st : CommitRace) (h : st.pc1 = .start) :
    stepP1 st = { st with pc1 := .checked st.dest.isSome } := by
  unfold stepP1
  rw [h]

theorem stepP1_checked_true (st : CommitRace) (h : st.pc1 = .checked true) :
    stepP1 st = { st with temp1 := none, pc1 := .done false false } := by
  unfold stepP1
  rw [h]

theorem stepP1_checked_false_some (st : CommitRace) (b : Bytes)
    (h : st.pc1 = .checked false) (ht : st.temp1 = some b) :
    stepP1 st = { st with dest := some (b, true), temp1 := none,
                          pc1 := .done true false } := by
  unfold stepP1
  rw [h, ht]

theorem stepP1_done (st : CommitRace) (c f : Bool)
    (h : st.pc1 = .done c f) : stepP1 st = st := by
  unfold stepP1
  rw [h]

theorem stepP2_start (st : CommitRace) (h : st.pc2 = .start) :
    stepP2 st = { st with pc2 := .checked st.dest.isSome } := by
  unfold stepP2
  rw [h]

theorem stepP2_checked_true (st : CommitRace) (h : st.pc2 = .checked true) :
    stepP2 st = { st with temp2 := none, pc2 := .done false false } := by
  unfold stepP2
  rw [h]

theorem stepP2_checked_false_some (st : CommitRace) (b : Bytes)
    (h : st.pc2 = .checked false) (ht : st.temp2 = some b) :
    stepP2 st = { st with dest := some (b, false), temp2 := none,
                          pc2 := .done true false } := by
  unfold stepP2
  rw [h, ht]

theorem stepP2_done (st : CommitRace) (c f : Bool)
    (h : st.pc2 = .done c f) : stepP2 st = st := by
  unfold stepP2
  rw [h]

theorem commitInv_init (B : Bytes) : commitInv B (commitInit B) := by
  refine ⟨Or.inl rfl, fun _ => rfl, fun _ => rfl, ?_, ?_, ?_, ?_⟩
  · intro c f h
    exact CommitPC.noConfusion h
  · intro c f h
    exact CommitPC.noConfusion h
  · intro h
    exact CommitPC.noConfusion h
  · intro h
    exact CommitPC.noConfusion h

theorem commitInv_step (B : Bytes) (st : CommitRace) (i : Bool)
    (h : commitInv B st) : commitInv B (commitStep st i) := by
  obtain ⟨hdest, ht1, ht2, hd1, hd2, hc1, hc2⟩ := h
  cases i with
  | true =>
    show commitInv B (stepP1 st)
    cases hpc : st.pc1 with
    | start =>
      rw [stepP1_start st hpc]
      refine ⟨hdest, fun _ => ht1 (by rw [hpc]; rfl), ht2, ?_, hd2, ?_, hc2⟩
      · intro c f hcf
        exact CommitPC.noConfusion hcf
      · intro hch
        injection hch with hobs
        rcases hdest with hnone | hsome
        · rw [hnone] at hobs
          exact Bool.noConfusion hobs
        · exact hsome
    | checked b =>
      cases b with
      | true =>
        rw [stepP1_checked_true st hpc]
        obtain ⟨w, hw⟩ := hc1 hpc
        refine ⟨Or.inr ⟨w, hw⟩, ?_, ht2, ?_, hd2, ?_, hc2⟩
        · intro hfalse
          exact Bool.noConfusion hfalse
        · intro c f hcf
          injection hcf with hc' hf'
          exact ⟨rfl, hf'.symm, ⟨w, hw⟩⟩
        · intro hch
          exact CommitPC.noConfusion hch
      | false =>
        cases htmp : st.temp1 with
        | none =>
          exfalso
          have hB := ht1 (by rw [hpc]; rfl)
          rw [htmp] at hB
          exact Option.noConfusion hB
        | some b2 =>
          have hb2 : b2 = B := by
            have hB := ht1 (by rw [hpc]; rfl)
            rw [htmp] at hB
            exact Option.some.inj hB
          rw [hb2] at htmp
          rw [stepP1_checked_false_some st B hpc htmp]
          refine ⟨Or.inr ⟨true, rfl⟩, ?_, ht2, ?_, ?_, ?_, ?_⟩
          · intro hfalse
            exact Bool.noConfusion hfalse
          · intro c f hcf
            injection hcf with hc' hf'
            exact ⟨rfl, hf'.symm, ⟨true, rfl⟩⟩
          · intro c f hcf
            obtain ⟨htn, hfn, -⟩ := hd2 c f hcf
            exact ⟨htn, hfn, ⟨true, rfl⟩⟩
          · intro hch
            exact CommitPC.noConfusion hch
          · intro hch
            exact ⟨true, rfl⟩
    | done c f =>
      rw [stepP1_done st c f hpc]
      exact ⟨hdest, ht1, ht2, hd1, hd2, hc1, hc2⟩
  | false =>
    show commitInv B (stepP2 st)
    cases hpc : st.pc2 with
    | start =>
      rw [stepP2_start st hpc]
      refine ⟨hdest, ht1, fun _ => ht2 (by rw [hpc]; rfl), hd1, ?_, hc1, ?_⟩
      · intro c f hcf
        exact CommitPC.noConfusion hcf
      · intro hch
        injection hch with hobs
        rcases hdest with hnone | hsome
        · rw [hnone] at hobs
          exact Bool.noConfusion hobs
        · exact hsome
    | checked b =>
      cases b with
      | true =>
        rw [stepP2_checked_true st hpc]
        obtain ⟨w, hw⟩ := hc2 hpc
        refine ⟨Or.inr ⟨w, hw⟩, ht1, ?_, hd1, ?_, hc1, ?_⟩
        · intro hfalse
          exact Bool.noConfusion hfalse
        · intro c f hcf
          injection hcf with hc' hf'
          exact ⟨rfl, hf'.symm, ⟨w, hw⟩⟩
        · intro hch
          exact CommitPC.noConfusion hch
      | false =>
        cases htmp : st.temp2 with
        | none =>
          exfalso
          have hB := ht2 (by rw [hpc]; rfl)
          rw [htmp] at hB
          exact Option.noConfusion hB
        | some b2 =>
          have hb2 : b2 = B := by
            have hB := ht2 (by rw [hpc]; rfl)
            rw [htmp] at hB
            exact Option.some.inj hB
          rw [hb2] at htmp
          rw [stepP2_checked_false_some st B hpc htmp]
          refine ⟨Or.inr ⟨false, rfl⟩, ht1, ?_, ?_, ?_, ?_, ?_⟩
          · intro hfalse
            exact Bool.noConfusion hfalse
          · intro c f hcf
            obtain ⟨htn, hfn, -⟩ := hd1 c f hcf
            exact ⟨htn, hfn, ⟨false, rfl⟩⟩
          · intro c f hcf
            injection hcf with hc' hf'
            exact ⟨rfl, hf'.symm, ⟨false, rfl⟩⟩
          · intro hch
            exact ⟨false, rfl⟩
          · intro hch
            exact CommitPC.noConfusion hch
    | done c f =>
      rw [stepP2_done st c f hpc]
      exact ⟨hdest, ht1, ht2, hd1, hd2, hc1, hc2⟩

theorem commitInv_run (B : Bytes) (st : CommitRace) (sched : List Bool)
    (h : commitInv B st) : commitInv B (runCommit st sched) := by
  induction sched generalizing st with
  | nil => exact h
  | cons i sched ih => exact ih (commitStep st i) (commitInv_step B st i h)

/-- Claim C4: under every interleaving of two committers for the same hash
with equal content, once both have returned, exactly one copy (one winner's)
occupies the hash-derived location and it holds the common content, both
staging copies are gone, neither call faulted, and both callers subsequently
observe the blob as existing and complete. -/
theorem C4_concurrent_commit (B : Bytes) (sched : List Bool)
    (c1 f1 c2 f2 : Bool)
    (h1 : (runCommit (commitInit B) sched).pc1 = .done c1 f1)
    (h2 : (runCommit (commitInit B) sched).pc2 = .done c2 f2) :
    (∃ w, (runCommit (commitInit B) sched).dest = some (B, w) ∧
      ∀ wp, (runCommit (commitInit B) sched).dest = some (B, wp) → wp = w) ∧
    (runCommit (commitInit B) sched).temp1 = none ∧
    (runCommit (commitInit B) sched).temp2 = none ∧
    f1 = false ∧ f2 = false ∧
    ((runCommit (commitInit B) sched).dest).isSome = true := by
  have hinv := commitInv_run B (commitInit B) sched (commitInv_init B)
  obtain ⟨hdest, ht1, ht2, hd1, hd2, hc1, hc2⟩ := hinv
  obtain ⟨htn1, hf1, w, hw⟩ := hd1 c1 f1 h1
  obtain ⟨htn2, hf2, -⟩ := hd2 c2 f2 h2
  refine ⟨⟨w, hw, ?_⟩, htn1, htn2, hf1, hf2, by rw [hw]; rfl⟩
  intro wp hwp
  rw [hw] at hwp
  exact (congrArg Prod.snd (Option.some.inj hwp)).symm

/-- Witness for C4 at a concrete input: one byte of content, the schedule
where the first committer checks and renames before the second checks. -/
theorem C4_witness :
    (∃ w,
      (runCommit (commitInit [1]) [true, true, false, false]).dest =
        some ([1], w) ∧
      ∀ wp,
        (runCommit (commitInit [1]) [true, true, false, false]).dest =
          some ([1], wp) → wp = w) ∧
    (runCommit (commitInit [1]) [true, true, false, false]).temp1 = none ∧
    (runCommit (commitInit [1]) [true, true, false, false]).temp2 = none ∧
    false = false ∧ false = false ∧
    ((runCommit (commitInit [1]) [true, true, false, false]).dest).isSome =
      true :=
  C4_concurrent_commit [1] [true, true, false, false] true false false false
    (by decide) (by decide)

/-!
## The ELF analysis status machine

One logical file record, created by `uploadHandler` and subsequently touched
only by the background job body of `scheduleELFAnalysis` and by
`metaHandler`'s on-demand path.  The stored content is immutable, so whether
it bears the ELF magic and whether `elfutil.AnalyzeBytes` succeeds on it are
fixed parameters of the record.
-/

/-- `analysis_status` column values. -/
inductive AnalysisStatus
  | none
  | pending
  | done
  | error
deriving DecidableEq, Repr

/-- Immutable facts about one uploaded record: whether the stored content
bears the ELF magic, and whether `elfutil.AnalyzeBytes` succeeds on that
content (the analyzer is a deterministic function of the bytes). -/
structure RecParams where
  isELF : Bool
  analyzerOk : Bool
deriving DecidableEq, Repr

/-- Mutable state of one record: the status column, whether an
`ElfAnalyzeCached` row exists, whether the background task scheduled at
upload is still waiting to run, and how many background tasks were ever
submitted for this record. -/
structure RecState where
  status : AnalysisStatus
  cached : Bool
  jobPending : Bool
  tasksSubmitted : Nat
deriving DecidableEq, Repr

/-- Record creation in the upload handlers: ELF-magic uploads start
`pending` and schedule exactly one background task
(`scheduleELFAnalysis`); everything else starts `none` with no task. -/
def createRec (p : RecParams) : RecState :=
  if p.isELF then
    { status := .pending, cached := false, jobPending := true,
      tasksSubmitted := 1 }
  else
    { status := .none, cached := false, jobPending := false,
      tasksSubmitted := 0 }

/-- Events that can touch an existing record: the scheduled background task
runs, or a metadata request arrives. -/
inductive RecEvent
  | runJob
  | metaReq
deriving DecidableEq, Repr

/-- The background job body of `scheduleELFAnalysis`: analyze the bytes; on
failure set status `error` (leaving the cache as is); on success upsert the
cache row and set status `done`. -/
def runJobStep (p : RecParams) (s : RecState) : RecState :=
  if s.jobPending = true then
    if p.analyzerOk = true then
      { s with status := .done, cached := true, jobPending := false }
    else
      { s with status := .error, jobPending := false }
  else s

/-- `metaHandler`: when no cache row exists, the status is not `error`, and
the stored bytes carry the ELF magic, compute inline; on success create the
cache row and set status `done`, on failure set status `error`.  In every
other situation the handler only reads. -/
def metaReqStep (p : RecParams) (s : RecState) : RecState :=
  if s.cached = false ∧ s.status ≠ .error ∧ p.isELF = true then
    if p.analyzerOk = true then
      { s with status := .done, cached := true }
    else
      { s with status := .error }
  else s

/-- One event against the record. -/
def stepRec (p : RecParams) (s : RecState) : RecEvent → RecState
  | .runJob => runJobStep p s
  | .metaReq => metaReqStep p s

/-- A sequence of events against the record. -/
def runRec (p : RecParams) (s : RecState) (es : List RecEvent) : RecState :=
  es.foldl (stepRec p) s

/-- Whether an event begins a new analyzer computation for the record: only
the inline compute of `metaHandler` can, and only when its guard (no cache,
status not `error`, ELF magic) passes.  Running the already-submitted
background task drains the submission made at upload rather than entering
computation anew, and no event ever submits a further task. -/
def initiatesComputation (p : RecParams) (s : RecState) : RecEvent → Bool
  | .runJob => false
  | .metaReq => decide (s.cached = false ∧ s.status ≠ .error ∧ p.isELF = true)

theorem tasksSubmitted_step (p : RecParams) (s : RecState) (e : RecEvent) :
    (stepRec p s e).tasksSubmitted = s.tasksSubmitted := by
  cases e with
  | runJob =>
    show (runJobStep p s).tasksSubmitted = s.tasksSubmitted
    unfold runJobStep
    by_cases hjp : s.jobPending = true
    · rw [if_pos hjp]
      by_cases hok : p.analyzerOk = true
      · rw [if_pos hok]
      · rw [if_neg hok]
    · rw [if_neg hjp]
  | metaReq =>
    show (metaReqStep p s).tasksSubmitted = s.tasksSubmitted
    unfold metaReqStep
    by_cases hg : s.cached = false ∧ s.status ≠ .error ∧ p.isELF = true
    · rw [if_pos hg]
      by_cases hok : p.analyzerOk = true
      · rw [if_pos hok]
      · rw [if_neg hok]
    · rw [if_neg hg]

theorem tasksSubmitted_run (p : RecParams) (s : RecState)
    (es : List RecEvent) :
    (runRec p s es).tasksSubmitted = s.tasksSubmitted := by
  induction es generalizing s with
  | nil => rfl
  | cons e es ih =>
    show (runRec p (stepRec p s e) es).tasksSubmitted = s.tasksSubmitted
    rw [ih, tasksSubmitted_step]

theorem no_error_step_when_ok (p : RecParams) (hok : p.analyzerOk = true)
    (s : RecState) (hs : s.status ≠ .error) (e : RecEvent) :
    (stepRec p s e).status ≠ .error := by
  cases e with
  | runJob =>
    show (runJobStep p s).status ≠ .error
    unfold runJobStep
    by_cases hjp : s.jobPending = true
    · rw [if_pos hjp, if_pos hok]
      intro hcon
      exact AnalysisStatus.noConfusion hcon
    · rw [if_neg hjp]
      exact hs
  | metaReq =>
    show (metaReqStep p s).status ≠ .error
    unfold metaReqStep
    by_cases hg : s.cached = false ∧ s.status ≠ .error ∧ p.isELF = true
    · rw [if_pos hg, if_pos hok]
      intro hcon
      exact AnalysisStatus.noConfusion hcon
    · rw [if_neg hg]
      exact hs

theorem no_error_when_ok (p : RecParams) (hok : p.analyzerOk = true)
    (s : RecState) (es : List RecEvent) (hs : s.status ≠ .error) :
    (runRec p s es).status ≠ .error := by
  induction es generalizing s with
  | nil => exact hs
  | cons e es ih =>
    exact ih (stepRec p s e) (no_error_step_when_ok p hok s hs e)

theorem analyzerFailed_of_error (p : RecParams) (es : List RecEvent)
    (herr : (runRec p (createRec p) es).status = .error) :
    p.analyzerOk = false := by
  by_cases hok : p.analyzerOk = true
  · exfalso
    have hinit : (createRec p).status ≠ .error := by
      unfold createRec
      by_cases he : p.isELF = true
      · rw [if_pos he]
        intro hcon
        exact AnalysisStatus.noConfusion hcon
      · rw [if_neg he]
        intro hcon
        exact AnalysisStatus.noConfusion hcon
    exact no_error_when_ok p hok (createRec p) es hinit herr
  · exact Bool.eq_false_iff.mpr hok

theorem error_stays_step (p : RecParams) (hfail : p.analyzerOk = false)
    (s : RecState) (hs : s.status = .error) (e : RecEvent) :
    (stepRec p s e).status = .error := by
  have hnok : ¬ p.analyzerOk = true := by
    rw [hfail]
    exact Bool.false_ne_true
  cases e with
  | runJob =>
    show (runJobStep p s).status = .error
    unfold runJobStep
    by_cases hjp : s.jobPending = true
    · rw [if_pos hjp, if_neg hnok]
    · rw [if_neg hjp]
      exact hs
  | metaReq =>
    show (metaReqStep p s).status = .error
    unfold metaReqStep
    rw [if_neg (by rintro ⟨-, hne, -⟩; exact hne hs)]
    exact hs

theorem error_stays_run (p : RecParams) (hfail : p.analyzerOk = false)
    (s : RecState) (hs : s.status = .error) (es : List RecEvent) :
    (runRec p s es).status = .error := by
  induction es generalizing s with
  | nil => exact hs
  | cons e es ih =>
    exact ih (stepRec p s e) (error_stays_step p hfail s hs e)

/-- Claim C9: once a record's analysis status reached `error` (along any
event sequence from creation), every further event sequence leaves the
status at `error` and never submits another background task; the on-demand
metadata request leaves such a record entirely unchanged (its compute guard
excludes `error`); no event begins a new computation for such a record, and
any event that ever begins a computation is an on-demand request. -/
theorem C9_error_terminal (p : RecParams) (es es2 : List RecEvent)
    (herr : (runRec p (createRec p) es).status = .error) :
    (runRec p (runRec p (createRec p) es) es2).status = .error ∧
    (runRec p (runRec p (createRec p) es) es2).tasksSubmitted =
      (runRec p (createRec p) es).tasksSubmitted ∧
    metaReqStep p (runRec p (createRec p) es) =
      runRec p (createRec p) es ∧
    (∀ e, initiatesComputation p (runRec p (createRec p) es) e = false) ∧
    (∀ t e, initiatesComputation p t e = true → e = RecEvent.metaReq) := by
  have hfail : p.analyzerOk = false := analyzerFailed_of_error p es herr
  refine ⟨error_stays_run p hfail _ herr es2,
    tasksSubmitted_run p _ es2, ?_, ?_, ?_⟩
  · unfold metaReqStep
    rw [if_neg (by rintro ⟨-, hne, -⟩; exact hne herr)]
  · intro e
    cases e with
    | runJob => rfl
    | metaReq =>
      exact decide_eq_false (by rintro ⟨-, hne, -⟩; exact hne herr)
  · intro t e hie
    cases e with
    | runJob => exact Bool.noConfusion hie
    | metaReq => rfl

/-- Witness for C9 at a concrete record: an ELF upload whose analyzer fails,
the background job runs (entering `error`), then a metadata request and a
spurious job event follow. -/
theorem C9_witness :
    (runRec ⟨true, false⟩ (runRec ⟨true, false⟩ (createRec ⟨true, false⟩)
        [RecEvent.runJob]) [RecEvent.metaReq, RecEvent.runJob]).status =
      AnalysisStatus.error ∧
    (runRec ⟨true, false⟩ (runRec ⟨true, false⟩ (createRec ⟨true, false⟩)
        [RecEvent.runJob])
      [RecEvent.metaReq, RecEvent.runJob]).tasksSubmitted =
      (runRec ⟨true, false⟩ (createRec ⟨true, false⟩)
        [RecEvent.runJob]).tasksSubmitted ∧
    metaReqStep ⟨true, false⟩
        (runRec ⟨true, false⟩ (createRec ⟨true, false⟩) [RecEvent.runJob]) =
      runRec ⟨true, false⟩ (createRec ⟨true, false⟩) [RecEvent.runJob] ∧
    (∀ e, initiatesComputation ⟨true, false⟩
        (runRec ⟨true, false⟩ (createRec ⟨true, false⟩) [RecEvent.runJob]) e =
      false) ∧
    (∀ t e, initiatesComputation ⟨true, false⟩ t e = true →
      e = RecEvent.metaReq) :=
  C9_error_terminal ⟨true, false⟩ [RecEvent.runJob]
    [RecEvent.metaReq, RecEvent.runJob] (by decide)

end Go4pack
